import Mathlib

/-!
# Verification of the iSubRip mock-data capture / replay harness

Shallow embedding of the HTTP record/replay fixture tooling:

* `tests/tools/generate_mock_data.py` — `MockDataGenerator.generate` and its
  nested `save_response_hook` (the capture orchestrator plus the response
  interceptor that writes fixture files and builds the manifest);
* `tests/tools/mock_loader.py` — `MockLoader.__init__` (manifest aggregation)
  and `MockLoader.mock_send_handler` (the replay transport).

Filesystem state is modelled explicitly as a map from paths to file data.
The scraper (an external collaborator per the design) is modelled as an
oracle `ScraperRun` recording, for each stage of the resolution cascade,
the HTTP responses its transport produced (each of which fires the
interceptor hook) and the value the stage returned.

`hashlib.sha256(url).hexdigest()` is an external library call; it is
modelled as an abstract parameter `h : String → String`.  The code relies
on it being a pure function of the URL whose hex digests neither collide
nor equal the literal name `manifest.json`; theorems that need those facts
carry them as explicit hypotheses.

JSON serialization (`json.dumps(manifest, indent=4, sort_keys=True)` /
`json.loads`) is modelled by a dedicated `FileData.jsonObj` constructor
holding the key-sorted entry list; decoding pattern-matches on it and fails
on raw bytes, modelling `json.JSONDecodeError` on non-JSON content.
-/

namespace ISubRip

/-- A filesystem path, as a list of components. -/
abbrev Path := List String

/-- Raw file bytes. -/
abbrev Bytes := List Nat

/-- Contents of a file on disk: raw response bytes, or the serialized JSON
object `json.dumps(manifest, indent=4, sort_keys=True)` holding the
key-sorted manifest entries. -/
inductive FileData where
  | raw (content : Bytes)
  | jsonObj (entries : List (String × String))
deriving DecidableEq

/-- Association-list lookup keyed by a decidable-equality key (first match
wins, matching the most-recent-write-first representation used below). -/
def alookup {κ α : Type} [DecidableEq κ] : List (κ × α) → κ → Option α
  | [], _ => none
  | (k, v) :: rest, key => if k = key then some v else alookup rest key

/-- The filesystem: files (most recent write first, keys kept unique by
`writeFile`) and the set of existing directories. -/
structure FS where
  files : List (Path × FileData)
  dirs : List Path
deriving DecidableEq

/-- Read a file's contents (`Path.read_text` / `Path.read_bytes`);
`none` models the file not existing. -/
def FS.readFile (fs : FS) (p : Path) : Option FileData :=
  alookup fs.files p

/-- `Path.is_file()`. -/
def FS.isFile (fs : FS) (p : Path) : Bool :=
  (fs.readFile p).isSome

/-- `Path.is_dir()`. -/
def FS.isDir (fs : FS) (p : Path) : Bool :=
  decide (p ∈ fs.dirs)

/-- `Path.write_bytes` / `Path.write_text`: create or overwrite the file
at `p`. -/
def FS.writeFile (fs : FS) (p : Path) (d : FileData) : FS :=
  { fs with files := (p, d) :: fs.files.filter (fun e => decide (e.1 ≠ p)) }

/-- `Path.mkdir(parents=True, exist_ok=True)`: create the directory and all
its ancestors; existing directories are untouched. -/
def FS.mkdirParents (fs : FS) (p : Path) : FS :=
  { fs with dirs := p.inits.filter (fun q => !decide (q ∈ fs.dirs)) ++ fs.dirs }

/-- `shutil.rmtree(p)`: remove the directory and everything beneath it. -/
def FS.rmtree (fs : FS) (p : Path) : FS :=
  { files := fs.files.filter (fun e => !decide (p <+: e.1)),
    dirs := fs.dirs.filter (fun q => !decide (p <+: q)) }

/-! ## Capture side: `MockDataGenerator.generate` -/

/-- One HTTP response observed by the interceptor hook: the canonical
request URL (`str(response.request.url)`) and the body bytes
(`response.content`). -/
structure Response where
  url : String
  content : Bytes
deriving DecidableEq

/-- The `playlist` attribute of a media item: a single URL or an ordered
list of URLs (`playlist_url[0] if isinstance(playlist_url, list) else
playlist_url`). -/
inductive PlaylistRef where
  | single (url : String)
  | multi (urls : List String)
deriving DecidableEq

/-- Python truthiness of the playlist reference (`if not playlist_url`):
an empty string and an empty list are falsy. -/
def PlaylistRef.truthy : PlaylistRef → Bool
  | .single u => !u.isEmpty
  | .multi l => !l.isEmpty

/-- The main playlist URL extracted from a truthy reference. -/
def PlaylistRef.mainUrl : PlaylistRef → String
  | .single u => u
  | .multi l => l.headD ""

/-- A scraped media item; `getattr(media_item, 'playlist', None)` yields
`none` when the attribute is absent. -/
structure MediaItem where
  playlist : Option PlaylistRef
deriving DecidableEq

/-- The scraper's `get_data` result object (`scraped_data.media_data`). -/
structure ScrapedData where
  media_data : List MediaItem
deriving DecidableEq

/-- A loaded m3u8 playlist; only its segment list is inspected by the
orchestrator (`subtitle_playlist.segments`). -/
structure Playlist where
  segments : List String
deriving DecidableEq

/-- Outcome of `scraper.load_playlist` on a subtitle entry: a returned
value (possibly `None`), a raised `PlaylistLoadError`, or an unexpected
exception — the latter two are caught per-entry by the orchestrator. -/
inductive SubLoadOutcome where
  | ok (p : Option Playlist)
  | raisedLoadError
  | raisedUnexpected
deriving DecidableEq

/-- Oracle data for processing one subtitle media entry: the responses the
transport produced while loading its playlist, the load outcome, and the
responses produced by `download_segments` (when invoked). -/
structure SubEntryRun where
  absolute_uri : String
  loadResponses : List Response
  loadOutcome : SubLoadOutcome
  segResponses : List Response
deriving DecidableEq

/-- Oracle for one capture run: what the scraper (external collaborator)
does at each cascade stage, and which HTTP responses fire the interceptor
hook during each stage.  `getDataResult = none` models a falsy
`scraped_data`; `mainResult = none` models a falsy main playlist.
`subtitleEntries` is the `find_matching_subtitles` result together with
each entry's behaviour; `isHLS` is `isinstance(self.scraper, HLSScraper)`. -/
structure ScraperRun where
  getDataResponses : List Response
  getDataResult : Option ScrapedData
  mainResponses : List Response
  mainResult : Option Playlist
  subtitleEntries : List SubEntryRun
  isHLS : Bool
deriving DecidableEq

/-- The ways the top-level cascade aborts (steps 3–6 of the orchestrator). -/
inductive CascadeAbort where
  | emptyMedia
  | noPlaylistRef
  | mainPlaylistFail
  | noSubtitles
deriving DecidableEq

/-- Responses intercepted while processing one subtitle entry: the load
responses always; the segment-download responses only when the playlist
loaded truthy with a nonempty segment list and the scraper is an
`HLSScraper`. -/
def subEntryEvents (isHLS : Bool) (r : SubEntryRun) : List Response :=
  r.loadResponses ++
    match r.loadOutcome with
    | .ok (some p) => if !p.segments.isEmpty && isHLS then r.segResponses else []
    | _ => []

/-- Walk the resolution cascade of `generate` (steps 3–7): returns the
sequence of responses the interceptor hook observes, in order, together
with the cascade abort (if the run aborted at a top-level stage). -/
def ScraperRun.events (run : ScraperRun) : List Response × Option CascadeAbort :=
  match run.getDataResult with
  | none => (run.getDataResponses, some .emptyMedia)
  | some sd =>
    match sd.media_data with
    | [] => (run.getDataResponses, some .emptyMedia)
    | item :: _ =>
      match item.playlist with
      | none => (run.getDataResponses, some .noPlaylistRef)
      | some ref =>
        if !ref.truthy then (run.getDataResponses, some .noPlaylistRef)
        else
          match run.mainResult with
          | none => (run.getDataResponses ++ run.mainResponses, some .mainPlaylistFail)
          | some _ =>
            if run.subtitleEntries.isEmpty then
              (run.getDataResponses ++ run.mainResponses, some .noSubtitles)
            else
              (run.getDataResponses ++ run.mainResponses ++
                (run.subtitleEntries.map (subEntryEvents run.isHLS)).flatten, none)

/-- The responses recorded by the interceptor during the run. -/
def ScraperRun.capturedResponses (run : ScraperRun) : List Response :=
  run.events.1

/-- The cascade abort of the run, when it aborted at a top-level stage. -/
def ScraperRun.cascadeAbort (run : ScraperRun) : Option CascadeAbort :=
  run.events.2

/-- State threaded through the interceptor hook: the in-memory `manifest`
dict (most recent entry first) and the filesystem. -/
structure GenState where
  manifest : List (String × String)
  fs : FS
deriving DecidableEq

/-- `save_response_hook(response)`: skip if the URL is already in the
manifest; otherwise write the body bytes to `output_dir / h(url)` and
record `manifest[url] = h(url)`. -/
def save_response_hook (h : String → String) (outDir : Path)
    (st : GenState) (r : Response) : GenState :=
  if (alookup st.manifest r.url).isSome then st
  else
    let filename := h r.url
    { manifest := (r.url, filename) :: st.manifest,
      fs := st.fs.writeFile (outDir ++ [filename]) (.raw r.content) }

/-- The hook applied to every intercepted response of the run, in order. -/
def processEvents (h : String → String) (outDir : Path)
    (st : GenState) (events : List Response) : GenState :=
  events.foldl (save_response_hook h outDir) st

/-- Ghost instrumentation: how many times the hook performs a fixture
write for `url` while processing `events` from `st` (the hook writes
exactly when the response URL is not yet in the manifest). -/
def writeCount (h : String → String) (outDir : Path)
    (st : GenState) (events : List Response) (url : String) : Nat :=
  match events with
  | [] => 0
  | e :: tl =>
    (if e.url = url ∧ (alookup st.manifest e.url).isSome = false then 1 else 0) +
      writeCount h outDir (save_response_hook h outDir st e) tl url

/-- Insert an entry into a key-sorted entry list, keeping it sorted. -/
def insertSorted (e : String × String) : List (String × String) → List (String × String)
  | [] => [e]
  | x :: xs => if e.1 ≤ x.1 then e :: x :: xs else x :: insertSorted e xs

/-- `sort_keys=True` of the manifest flush: entries sorted ascending by
URL (insertion sort; with the manifest's unique keys, the sorted entry
list is what `json.dumps(..., sort_keys=True)` serializes). -/
def sortEntries : List (String × String) → List (String × String)
  | [] => []
  | x :: xs => insertSorted x (sortEntries xs)

/-- Outcome report of a `generate` call: refused (`already exists`,
returned before any mutation), or ran to the `finally` block with the
given cascade abort and number of manifest entries captured. -/
inductive GenReport where
  | refused
  | ran (abort : Option CascadeAbort) (entries : Nat)
deriving DecidableEq

/-- `MockDataGenerator.generate(url, languages, force)` over the
filesystem `fs0`, with `outDir` the computed output directory
(`MOCK_DATA_ROOT / self.output_path(url)`, an external per-provider
computation) and `run` the scraper oracle.  Mirrors the source: the
refusal / force-wipe check, `mkdir(parents=True, exist_ok=True)`, the
hook firing on every response of the cascade, and the `finally` block
that flushes the manifest iff it is nonempty. -/
def generate (h : String → String) (run : ScraperRun) (fs0 : FS)
    (outDir : Path) (force : Bool) : FS × GenReport :=
  let manifestPath := outDir ++ ["manifest.json"]
  if fs0.isDir outDir && fs0.isFile manifestPath && !force then
    (fs0, .refused)
  else
    let fs1 := if fs0.isDir outDir && fs0.isFile manifestPath then fs0.rmtree outDir else fs0
    let fs2 := fs1.mkdirParents outDir
    let st := processEvents h outDir ⟨[], fs2⟩ run.capturedResponses
    let fsF :=
      if st.manifest.isEmpty then st.fs
      else st.fs.writeFile manifestPath (.jsonObj (sortEntries st.manifest))
    (fsF, .ran run.cascadeAbort st.manifest.length)

/-- The interceptor state at the end of a capture run against a fresh
output directory: the in-memory manifest dict and the filesystem after
the hook has processed every intercepted response of the run. -/
def captureState (h : String → String) (run : ScraperRun) (fs0 : FS) (outDir : Path) :
    GenState :=
  processEvents h outDir ⟨[], fs0.mkdirParents outDir⟩ run.capturedResponses

/-! ## Replay side: `MockLoader` -/

/-- `json.loads` of a manifest file: succeeds exactly on serialized JSON
objects, raising `JSONDecodeError` (modelled as `none`) on raw bytes. -/
def decodeManifest : FileData → Option (List (String × String))
  | .jsonObj entries => some entries
  | .raw _ => none

/-- `self._manifest[url] = path`: dict assignment, overriding any earlier
binding of the key. -/
def insertEntry {α : Type} [DecidableEq String] (idx : List (String × α))
    (url : String) (v : α) : List (String × α) :=
  (url, v) :: idx.filter (fun e => decide (e.1 ≠ url))

/-- Load one manifest file into the aggregated index: parse it, and insert
each `(url, filename)` entry with the filename resolved relative to the
manifest's own directory (`manifest_path.parent / filename`).  A missing
or undecodable file is logged and skipped (`except` clauses), leaving the
index unchanged. -/
def loadManifestInto (fs : FS) (idx : List (String × Path)) (mp : Path) :
    List (String × Path) :=
  match fs.readFile mp with
  | none => idx
  | some fd =>
    match decodeManifest fd with
    | none => idx
    | some entries =>
      entries.foldl (fun a e => insertEntry a e.1 (mp.dropLast ++ [e.2])) idx

/-- `self.mock_data_dir.rglob("manifest.json")`: every file under the root
whose final component is `manifest.json`, in the filesystem's enumeration
order (the scan order). -/
def findManifests (fs : FS) (root : Path) : List Path :=
  (fs.files.map Prod.fst).filter
    (fun p => decide (root <+: p) && decide (p.getLast? = some "manifest.json"))

/-- Merge the discovered manifests, in scan order, into one URL → path
index; later-scanned manifests override earlier ones. -/
def aggregateIndex (fs : FS) (ps : List Path) : List (String × Path) :=
  ps.foldl (loadManifestInto fs) []

/-- The two fatal construction errors of `MockLoader.__init__`:
`FileNotFoundError` when no manifest file is discovered, `ValueError` when
the combined index is empty after parsing. -/
inductive LoaderError where
  | noManifestFound
  | noValidData
deriving DecidableEq

/-- `MockLoader.__init__(mock_data_dir)`: discover manifests, aggregate
them, and fail fatally on no manifests or an empty combined index. -/
def mockLoaderInit (fs : FS) (root : Path) :
    Except LoaderError (List (String × Path)) :=
  let ps := findManifests fs root
  if ps.isEmpty then .error .noManifestFound
  else
    let idx := aggregateIndex fs ps
    if idx.isEmpty then .error .noValidData
    else .ok idx

/-- An outgoing `httpx.Request`: the handler derives `str(request.url)`;
method, headers and body are carried but never examined. -/
structure Request where
  url : String
  method : String
  headers : List (String × String)
  body : Bytes
deriving DecidableEq

/-- A synthesized `httpx.Response`. -/
structure HttpResponse where
  status_code : Nat
  content : Bytes
  request : Request
deriving DecidableEq

/-- Failures `mock_send_handler` can raise: `KeyError` for a URL absent
from the index, or a filesystem error reading the fixture file. -/
inductive ReplayError where
  | keyError (url : String)
  | readError (p : Path)
deriving DecidableEq

/-- UTF-8-ish byte rendering of a string (used only to give serialized
JSON files a byte-level reading). -/
def stringBytes (s : String) : Bytes :=
  s.data.map Char.toNat

/-- `read_bytes` of any file: raw files yield their bytes; a serialized
JSON manifest yields the bytes of its text. -/
def FileData.toBytes : FileData → Bytes
  | .raw b => b
  | .jsonObj entries => (entries.map (fun e => stringBytes e.1 ++ stringBytes e.2)).flatten

/-- `MockLoader.mock_send_handler(request)`: look the URL up in the
aggregated index (`KeyError` if absent), read the fixture bytes, and
return a status-200 response carrying them and the original request. -/
def mock_send_handler (idx : List (String × Path)) (fs : FS)
    (req : Request) : Except ReplayError HttpResponse :=
  match alookup idx req.url with
  | none => .error (.keyError req.url)
  | some p =>
    match fs.readFile p with
    | none => .error (.readError p)
    | some fd => .ok ⟨200, fd.toBytes, req⟩

/-- The observable part of a replay result that does not mention the
request object: status code and body bytes of a returned response. -/
def responseView : Except ReplayError HttpResponse → Option (Nat × Bytes)
  | .ok r => some (r.status_code, r.content)
  | .error _ => none

/-- End-to-end replay: construct the `MockLoader` over `root` and serve
`req` through its send handler (the benchmark harness's
`patch("httpx.AsyncClient.send", side_effect=mock_loader.mock_send_handler)`
composition); `none` when loader construction failed fatally. -/
def replayRequest (fs : FS) (root : Path) (req : Request) :
    Option (Except ReplayError HttpResponse) :=
  match mockLoaderInit fs root with
  | .error _ => none
  | .ok idx => some (mock_send_handler idx fs req)

/-! ## Association-list lemmas -/

theorem alookup_cons {κ α : Type} [DecidableEq κ] (k : κ) (v : α) (l : List (κ × α)) (key : κ) :
    alookup ((k, v) :: l) key = if k = key then some v else alookup l key := rfl

theorem alookup_append {κ α : Type} [DecidableEq κ] (l₁ l₂ : List (κ × α)) (key : κ) :
    alookup (l₁ ++ l₂) key =
      match alookup l₁ key with
      | some v => some v
      | none => alookup l₂ key := by
  induction l₁ with
  | nil => rfl
  | cons e tl ih =>
    obtain ⟨k, v⟩ := e
    by_cases hk : k = key
    · simp [alookup_cons, hk]
    · simpa [alookup_cons, hk] using ih

theorem alookup_eq_none_iff {κ α : Type} [DecidableEq κ] (l : List (κ × α)) (key : κ) :
    alookup l key = none ↔ key ∉ l.map Prod.fst := by
  induction l with
  | nil => simp [alookup]
  | cons e tl ih =>
    obtain ⟨k, v⟩ := e
    rw [alookup_cons]
    by_cases hk : k = key
    · subst hk; simp
    · simp [hk, ih, Ne.symm hk]

theorem alookup_isSome_iff {κ α : Type} [DecidableEq κ] (l : List (κ × α)) (key : κ) :
    (alookup l key).isSome = true ↔ key ∈ l.map Prod.fst := by
  rw [Option.isSome_iff_ne_none]
  constructor
  · intro hne
    by_contra hmem
    exact hne ((alookup_eq_none_iff l key).mpr hmem)
  · intro hmem hnone
    exact ((alookup_eq_none_iff l key).mp hnone) hmem

theorem alookup_filter_ne {κ α : Type} [DecidableEq κ] (l : List (κ × α)) (u key : κ)
    (hne : key ≠ u) :
    alookup (l.filter (fun e => decide (e.1 ≠ u))) key = alookup l key := by
  induction l with
  | nil => rfl
  | cons e tl ih =>
    obtain ⟨k, v⟩ := e
    by_cases hku : k = u
    · subst hku
      rw [List.filter_cons_of_neg (by simp), ih, alookup_cons,
        if_neg (Ne.symm hne)]
    · rw [List.filter_cons_of_pos (by simpa using hku), alookup_cons, alookup_cons]
      by_cases hkk : k = key
      · rw [if_pos hkk, if_pos hkk]
      · rw [if_neg hkk, if_neg hkk, ih]

theorem alookup_of_mem_nodup {κ α : Type} [DecidableEq κ] (l : List (κ × α)) (key : κ) (v : α)
    (hnd : (l.map Prod.fst).Nodup) (hmem : (key, v) ∈ l) :
    alookup l key = some v := by
  induction l with
  | nil => simp at hmem
  | cons e tl ih =>
    obtain ⟨k, w⟩ := e
    simp only [List.map_cons, List.nodup_cons] at hnd
    rcases List.mem_cons.mp hmem with h | h
    · injection h with h1 h2
      subst h1; subst h2
      simp [alookup_cons]
    · have hk : k ≠ key := by
        intro hkk
        exact hnd.1 (hkk ▸ (List.mem_map.mpr ⟨(key, v), h, rfl⟩))
      simp [alookup_cons, hk, ih hnd.2 h]

theorem alookup_insertEntry {α : Type} (idx : List (String × α)) (url key : String) (v : α) :
    alookup (insertEntry idx url v) key =
      if url = key then some v else alookup idx key := by
  unfold insertEntry
  rw [alookup_cons]
  by_cases h : url = key
  · rw [if_pos h, if_pos h]
  · rw [if_neg h, if_neg h, alookup_filter_ne _ _ _ (Ne.symm h)]

/-! ## Filesystem lemmas -/

theorem readFile_writeFile_self (fs : FS) (p : Path) (d : FileData) :
    (fs.writeFile p d).readFile p = some d := by
  simp [FS.writeFile, FS.readFile, alookup_cons]

theorem readFile_writeFile_ne (fs : FS) (p q : Path) (d : FileData) (h : q ≠ p) :
    (fs.writeFile p d).readFile q = fs.readFile q := by
  simp only [FS.writeFile, FS.readFile]
  rw [alookup_cons, if_neg (Ne.symm h)]
  exact alookup_filter_ne _ _ _ h

theorem isFile_writeFile_mono (fs : FS) (p q : Path) (d : FileData)
    (h : fs.isFile q = true) : (fs.writeFile p d).isFile q = true := by
  by_cases hq : q = p
  · subst hq; simp [FS.isFile, readFile_writeFile_self]
  · rwa [FS.isFile, readFile_writeFile_ne fs p q d hq]

theorem readFile_mkdirParents (fs : FS) (p q : Path) :
    (fs.mkdirParents p).readFile q = fs.readFile q := rfl

theorem isFile_mkdirParents (fs : FS) (p q : Path) :
    (fs.mkdirParents p).isFile q = fs.isFile q := rfl

theorem files_mkdirParents (fs : FS) (p : Path) :
    (fs.mkdirParents p).files = fs.files := rfl

theorem isDir_mkdirParents_self (fs : FS) (p : Path) :
    (fs.mkdirParents p).isDir p = true := by
  simp only [FS.mkdirParents, FS.isDir, decide_eq_true_eq, List.mem_append,
    List.mem_filter]
  by_cases h : p ∈ fs.dirs
  · exact Or.inr h
  · exact Or.inl ⟨(List.mem_inits _ _).mpr (List.prefix_refl p), by simpa using h⟩

theorem writeFile_files_keys (fs : FS) (p : Path) (d : FileData) (q : Path)
    (h : q ∈ (fs.writeFile p d).files.map Prod.fst) :
    q = p ∨ q ∈ fs.files.map Prod.fst := by
  simp only [FS.writeFile, List.map_cons, List.mem_cons] at h
  rcases h with h | h
  · exact Or.inl h
  · right
    obtain ⟨e, he, rfl⟩ := List.mem_map.mp h
    exact List.mem_map.mpr ⟨e, (List.mem_filter.mp he).1, rfl⟩

/-! ## Interceptor-hook lemmas -/

theorem hook_skip (hf : String → String) (o : Path) (st : GenState) (e : Response)
    (hrec : (alookup st.manifest e.url).isSome = true) :
    save_response_hook hf o st e = st := by
  unfold save_response_hook
  rw [if_pos hrec]

theorem hook_record (hf : String → String) (o : Path) (st : GenState) (e : Response)
    (hnew : (alookup st.manifest e.url).isSome = false) :
    save_response_hook hf o st e =
      ⟨(e.url, hf e.url) :: st.manifest,
        st.fs.writeFile (o ++ [hf e.url]) (.raw e.content)⟩ := by
  unfold save_response_hook
  rw [if_neg (by simp [hnew])]

theorem processEvents_nil (hf : String → String) (o : Path) (st : GenState) :
    processEvents hf o st [] = st := rfl

theorem processEvents_cons (hf : String → String) (o : Path) (st : GenState)
    (e : Response) (tl : List Response) :
    processEvents hf o st (e :: tl) =
      processEvents hf o (save_response_hook hf o st e) tl := rfl

theorem processEvents_lookup_some (hf : String → String) (o : Path) (es : List Response) :
    ∀ (st : GenState) (u : String) (v : String), alookup st.manifest u = some v →
    alookup (processEvents hf o st es).manifest u = some v := by
  induction es with
  | nil => intro st u v hv; exact hv
  | cons e tl ih =>
    intro st u v hv
    rw [processEvents_cons]
    by_cases hrec : (alookup st.manifest e.url).isSome = true
    · rw [hook_skip _ _ _ _ hrec]; exact ih st u v hv
    · rw [hook_record _ _ _ _ (by simpa using hrec)]
      apply ih
      have hne : e.url ≠ u := by
        intro hequ
        rw [hequ, hv] at hrec
        simp at hrec
      rw [show alookup ((e.url, hf e.url) :: st.manifest) u =
        alookup st.manifest u from by rw [alookup_cons, if_neg hne]]
      exact hv

theorem processEvents_lookup_new (hf : String → String) (o : Path) (es : List Response) :
    ∀ (st : GenState) (u : String), alookup st.manifest u = none →
    es.any (fun e => decide (e.url = u)) = true →
    alookup (processEvents hf o st es).manifest u = some (hf u) := by
  induction es with
  | nil => intro st u _ hany; simp at hany
  | cons e tl ih =>
    intro st u hnone hany
    rw [processEvents_cons]
    by_cases hequ : e.url = u
    · rw [hook_record _ _ _ _ (by rw [hequ, hnone]; rfl)]
      apply processEvents_lookup_some
      rw [alookup_cons, if_pos hequ, hequ]
    · have hany' : tl.any (fun e => decide (e.url = u)) = true := by
        rcases List.any_eq_true.mp hany with ⟨e', he', hpe⟩
        rcases List.mem_cons.mp he' with rfl | he'
        · exact absurd (of_decide_eq_true hpe) hequ
        · exact List.any_eq_true.mpr ⟨e', he', hpe⟩
      by_cases hrec : (alookup st.manifest e.url).isSome = true
      · rw [hook_skip _ _ _ _ hrec]; exact ih st u hnone hany'
      · rw [hook_record _ _ _ _ (by simpa using hrec)]
        apply ih _ u _ hany'
        rw [show alookup ((e.url, hf e.url) :: st.manifest) u =
          alookup st.manifest u from by rw [alookup_cons, if_neg hequ]]
        exact hnone

theorem processEvents_manifest_mem (hf : String → String) (o : Path) (es : List Response) :
    ∀ (st : GenState) (k v : String), (k, v) ∈ (processEvents hf o st es).manifest →
    (k, v) ∈ st.manifest ∨ (v = hf k ∧ es.any (fun e => decide (e.url = k)) = true) := by
  induction es with
  | nil => intro st k v hm; exact Or.inl hm
  | cons e tl ih =>
    intro st k v hm
    rw [processEvents_cons] at hm
    by_cases hrec : (alookup st.manifest e.url).isSome = true
    · rw [hook_skip _ _ _ _ hrec] at hm
      rcases ih st k v hm with h | ⟨h1, h2⟩
      · exact Or.inl h
      · exact Or.inr ⟨h1, by simp [List.any_cons, h2]⟩
    · rw [hook_record _ _ _ _ (by simpa using hrec)] at hm
      rcases ih _ k v hm with h | ⟨h1, h2⟩
      · rcases List.mem_cons.mp h with h' | h'
        · injection h' with hk hv
          exact Or.inr ⟨by rw [hv, hk], by simp [List.any_cons, hk]⟩
        · exact Or.inl h'
      · exact Or.inr ⟨h1, by simp [List.any_cons, h2]⟩

theorem processEvents_nodup_keys (hf : String → String) (o : Path) (es : List Response) :
    ∀ st : GenState, (st.manifest.map Prod.fst).Nodup →
    ((processEvents hf o st es).manifest.map Prod.fst).Nodup := by
  induction es with
  | nil => intro st hnd; exact hnd
  | cons e tl ih =>
    intro st hnd
    rw [processEvents_cons]
    by_cases hrec : (alookup st.manifest e.url).isSome = true
    · rw [hook_skip _ _ _ _ hrec]; exact ih st hnd
    · rw [hook_record _ _ _ _ (by simpa using hrec)]
      apply ih
      simp only [List.map_cons, List.nodup_cons]
      refine ⟨?_, hnd⟩
      have := (alookup_eq_none_iff st.manifest e.url).mp
        (Option.not_isSome_iff_eq_none.mp (by simpa using hrec))
      exact this

theorem processEvents_isFile_mono (hf : String → String) (o : Path) (es : List Response) :
    ∀ (st : GenState) (q : Path), st.fs.isFile q = true →
    (processEvents hf o st es).fs.isFile q = true := by
  induction es with
  | nil => intro st q hq; exact hq
  | cons e tl ih =>
    intro st q hq
    rw [processEvents_cons]
    by_cases hrec : (alookup st.manifest e.url).isSome = true
    · rw [hook_skip _ _ _ _ hrec]; exact ih st q hq
    · rw [hook_record _ _ _ _ (by simpa using hrec)]
      exact ih _ q (isFile_writeFile_mono _ _ _ _ hq)

theorem processEvents_files_keys (hf : String → String) (o : Path) (es : List Response) :
    ∀ (st : GenState) (p : Path), p ∈ (processEvents hf o st es).fs.files.map Prod.fst →
    p ∈ st.fs.files.map Prod.fst ∨ ∃ e ∈ es, p = o ++ [hf e.url] := by
  induction es with
  | nil => intro st p hp; exact Or.inl hp
  | cons e tl ih =>
    intro st p hp
    rw [processEvents_cons] at hp
    by_cases hrec : (alookup st.manifest e.url).isSome = true
    · rw [hook_skip _ _ _ _ hrec] at hp
      rcases ih st p hp with h | ⟨e', he', hpe⟩
      · exact Or.inl h
      · exact Or.inr ⟨e', List.mem_cons_of_mem _ he', hpe⟩
    · rw [hook_record _ _ _ _ (by simpa using hrec)] at hp
      rcases ih _ p hp with h | ⟨e', he', hpe⟩
      · rcases writeFile_files_keys _ _ _ _ h with h' | h'
        · exact Or.inr ⟨e, List.mem_cons_self _ _, h'⟩
        · exact Or.inl h'
      · exact Or.inr ⟨e', List.mem_cons_of_mem _ he', hpe⟩

theorem fixturePath_inj (o : Path) (a b : String) (h : o ++ [a] = o ++ [b]) : a = b := by
  have := List.append_cancel_left h
  injection this

theorem processEvents_readFile_frozen (hf : String → String) (o : Path) (es : List Response) :
    ∀ (st : GenState) (u : String), (alookup st.manifest u).isSome = true →
    (∀ e ∈ es, hf e.url = hf u → e.url = u) →
    (processEvents hf o st es).fs.readFile (o ++ [hf u]) = st.fs.readFile (o ++ [hf u]) := by
  induction es with
  | nil => intro st u _ _; rfl
  | cons e tl ih =>
    intro st u hrecu hinj
    rw [processEvents_cons]
    have hinj' : ∀ e' ∈ tl, hf e'.url = hf u → e'.url = u :=
      fun e' he' => hinj e' (List.mem_cons_of_mem _ he')
    by_cases hrec : (alookup st.manifest e.url).isSome = true
    · rw [hook_skip _ _ _ _ hrec]; exact ih st u hrecu hinj'
    · rw [hook_record _ _ _ _ (by simpa using hrec)]
      have hne : e.url ≠ u := by
        intro hequ
        rw [hequ] at hrec
        exact hrec hrecu
      have hfne : o ++ [hf e.url] ≠ o ++ [hf u] := by
        intro hcontra
        exact hne (hinj e (List.mem_cons_self _ _) (fixturePath_inj o _ _ hcontra))
      have hrecu' : (alookup ((e.url, hf e.url) :: st.manifest) u).isSome = true := by
        rw [alookup_cons, if_neg hne]; exact hrecu
      rw [ih _ u hrecu' hinj']
      exact readFile_writeFile_ne _ _ _ _ (Ne.symm hfne)

theorem processEvents_fixture_content (hf : String → String) (o : Path) (es : List Response) :
    ∀ (st : GenState) (u : String) (e₀ : Response),
    alookup st.manifest u = none →
    (∀ e ∈ es, hf e.url = hf u → e.url = u) →
    es.find? (fun e => decide (e.url = u)) = some e₀ →
    (processEvents hf o st es).fs.readFile (o ++ [hf u]) = some (.raw e₀.content) := by
  induction es with
  | nil => intro st u e₀ _ _ hfind; simp at hfind
  | cons e tl ih =>
    intro st u e₀ hnone hinj hfind
    rw [processEvents_cons]
    have hinj' : ∀ e' ∈ tl, hf e'.url = hf u → e'.url = u :=
      fun e' he' => hinj e' (List.mem_cons_of_mem _ he')
    by_cases hequ : e.url = u
    · have hfind' : e₀ = e := by
        rw [List.find?_cons_of_pos _ (by simpa using hequ)] at hfind
        injection hfind with hfind
        exact hfind.symm
      subst hfind'
      rw [hook_record _ _ _ _ (by rw [hequ, hnone]; rfl)]
      have hrecu : (alookup ((e₀.url, hf e₀.url) :: st.manifest) u).isSome = true := by
        rw [alookup_cons, if_pos hequ]; rfl
      rw [processEvents_readFile_frozen hf o tl _ u hrecu hinj']
      rw [hequ]
      exact readFile_writeFile_self _ _ _
    · rw [List.find?_cons_of_neg _ (by simpa using hequ)] at hfind
      by_cases hrec : (alookup st.manifest e.url).isSome = true
      · rw [hook_skip _ _ _ _ hrec]; exact ih st u e₀ hnone hinj' hfind
      · rw [hook_record _ _ _ _ (by simpa using hrec)]
        apply ih _ u e₀ _ hinj' hfind
        rw [alookup_cons, if_neg hequ]
        exact hnone

theorem processEvents_manifest_ne_nil (hf : String → String) (o : Path) (es : List Response) :
    ∀ st : GenState, st.manifest ≠ [] → (processEvents hf o st es).manifest ≠ [] := by
  induction es with
  | nil => intro st hne; exact hne
  | cons e tl ih =>
    intro st hne
    rw [processEvents_cons]
    by_cases hrec : (alookup st.manifest e.url).isSome = true
    · rw [hook_skip _ _ _ _ hrec]; exact ih st hne
    · rw [hook_record _ _ _ _ (by simpa using hrec)]
      exact ih _ (by simp)

theorem processEvents_empty_manifest_iff (hf : String → String) (o : Path) (fs : FS)
    (es : List Response) :
    (processEvents hf o ⟨[], fs⟩ es).manifest = [] ↔ es = [] := by
  constructor
  · intro hm
    cases es with
    | nil => rfl
    | cons e tl =>
      exfalso
      rw [processEvents_cons, hook_record _ _ _ _ (by rfl)] at hm
      exact processEvents_manifest_ne_nil hf o tl _ (by simp) hm
  · intro he
    rw [he, processEvents_nil]

/-! ## Sorting lemmas -/

theorem insertSorted_perm (e : String × String) (l : List (String × String)) :
    List.Perm (insertSorted e l) (e :: l) := by
  induction l with
  | nil => exact List.Perm.refl _
  | cons x xs ih =>
    unfold insertSorted
    by_cases h : e.1 ≤ x.1
    · rw [if_pos h]
    · rw [if_neg h]
      exact (ih.cons x).trans (List.Perm.swap e x xs)

theorem sortEntries_perm (m : List (String × String)) : List.Perm (sortEntries m) m := by
  induction m with
  | nil => exact List.Perm.refl _
  | cons x xs ih => exact (insertSorted_perm x (sortEntries xs)).trans (ih.cons x)

/-! ## Aggregation lemmas -/

theorem alookup_mem {κ α : Type} [DecidableEq κ] (l : List (κ × α)) (key : κ) (v : α)
    (h : alookup l key = some v) : (key, v) ∈ l := by
  induction l with
  | nil => simp [alookup] at h
  | cons e tl ih =>
    obtain ⟨k, w⟩ := e
    rw [alookup_cons] at h
    by_cases hk : k = key
    · rw [if_pos hk] at h
      injection h with h
      rw [← hk, ← h]
      exact List.mem_cons_self _ _
    · rw [if_neg hk] at h
      exact List.mem_cons_of_mem _ (ih h)

theorem entriesFold_lookup (r : String → Path) (entries : List (String × String)) :
    ∀ (idx : List (String × Path)) (url : String),
    alookup (entries.foldl (fun a e => insertEntry a e.1 (r e.2)) idx) url =
      match alookup entries.reverse url with
      | some fn => some (r fn)
      | none => alookup idx url := by
  induction entries with
  | nil => intro idx url; rfl
  | cons e tl ih =>
    intro idx url
    rw [List.foldl_cons, ih, List.reverse_cons, alookup_append]
    cases htl : alookup tl.reverse url with
    | some fn => rfl
    | none =>
      rw [alookup_insertEntry]
      by_cases he : e.1 = url
      · rw [if_pos he]
        obtain ⟨k, v⟩ := e
        simp only at he
        simp [alookup_cons, he, alookup]
      · rw [if_neg he]
        obtain ⟨k, v⟩ := e
        simp only at he
        simp [alookup_cons, he, alookup]

theorem loadManifestInto_lookup (fs : FS) (idx : List (String × Path)) (mp : Path)
    (url : String) :
    alookup (loadManifestInto fs idx mp) url =
      match (fs.readFile mp).bind decodeManifest with
      | none => alookup idx url
      | some entries =>
        match alookup entries.reverse url with
        | some fn => some (mp.dropLast ++ [fn])
        | none => alookup idx url := by
  unfold loadManifestInto
  cases hrf : fs.readFile mp with
  | none => simp [hrf]
  | some fd =>
    cases hdec : decodeManifest fd with
    | none => simp [hrf, hdec]
    | some entries =>
      simp only [hrf, hdec, Option.some_bind]
      exact entriesFold_lookup (fun s => mp.dropLast ++ [s]) entries idx url

theorem aggregateFold_lookup_unchanged (fs : FS) (ps : List Path) (url : String)
    (hnone : ∀ q ∈ ps, ∀ es', (fs.readFile q).bind decodeManifest = some es' →
      url ∉ es'.map Prod.fst) :
    ∀ idx : List (String × Path),
    alookup (ps.foldl (loadManifestInto fs) idx) url = alookup idx url := by
  induction ps with
  | nil => intro idx; rfl
  | cons q tl ih =>
    intro idx
    rw [List.foldl_cons, ih (fun q' hq' => hnone q' (List.mem_cons_of_mem _ hq')),
      loadManifestInto_lookup]
    cases hrd : (fs.readFile q).bind decodeManifest with
    | none => rfl
    | some es' =>
      have hnm : url ∉ es'.map Prod.fst := hnone q (List.mem_cons_self _ _) es' hrd
      have hrev : alookup es'.reverse url = none := by
        rw [alookup_eq_none_iff]
        intro hmem
        apply hnm
        obtain ⟨e, he, rfl⟩ := List.mem_map.mp hmem
        exact List.mem_map.mpr ⟨e, List.mem_reverse.mp he, rfl⟩
      simp [hrev]

/-! ## `generate` unfolding lemmas -/

theorem generate_of_no_manifest (hf : String → String) (run : ScraperRun) (fs0 : FS)
    (outDir : Path) (force : Bool)
    (hnm : fs0.isFile (outDir ++ ["manifest.json"]) = false) :
    generate hf run fs0 outDir force =
      ((if (processEvents hf outDir ⟨[], fs0.mkdirParents outDir⟩ run.capturedResponses).manifest.isEmpty
        then (processEvents hf outDir ⟨[], fs0.mkdirParents outDir⟩ run.capturedResponses).fs
        else (processEvents hf outDir ⟨[], fs0.mkdirParents outDir⟩ run.capturedResponses).fs.writeFile
          (outDir ++ ["manifest.json"])
          (.jsonObj (sortEntries (processEvents hf outDir ⟨[], fs0.mkdirParents outDir⟩ run.capturedResponses).manifest))),
       .ran run.cascadeAbort
         (processEvents hf outDir ⟨[], fs0.mkdirParents outDir⟩ run.capturedResponses).manifest.length) := by
  unfold generate
  simp [hnm]

theorem isFile_eq_false_of_clean (fs0 : FS) (outDir p : Path)
    (hclean : ∀ pr ∈ fs0.files, ¬ (outDir <+: pr.1)) (hp : outDir <+: p) :
    fs0.isFile p = false := by
  rw [FS.isFile, FS.readFile]
  cases h : alookup fs0.files p with
  | none => rfl
  | some d => exact absurd hp (hclean (p, d) (alookup_mem _ _ _ h))

/-! ## Claim theorems -/

/-- **C5** (Idempotent refusal): when the output directory exists and
already contains a manifest file and the force flag is false, `generate`
returns immediately with a refusal report and the filesystem completely
unchanged — no mutation of any on-disk state. -/
theorem idempotent_refusal (hf : String → String) (run : ScraperRun) (fs0 : FS)
    (outDir : Path)
    (hd : fs0.isDir outDir = true)
    (hm : fs0.isFile (outDir ++ ["manifest.json"]) = true) :
    generate hf run fs0 outDir false = (fs0, .refused) := by
  unfold generate
  simp [hd, hm]

/-- Witness for C5: a concrete directory with a manifest is refused
byte-for-byte unchanged. -/
theorem idempotent_refusal_witness :
    generate (fun s => s) ⟨[], none, [], none, [], true⟩
      ⟨[(["d", "manifest.json"], .jsonObj [])], [["d"]]⟩ ["d"] false =
      (⟨[(["d", "manifest.json"], .jsonObj [])], [["d"]]⟩, .refused) :=
  idempotent_refusal _ _ _ _ (by decide) (by decide)

/-- **C9** (implicit — refusal and forced deletion both require a complete
prior capture): if the output directory exists but holds no manifest file,
`generate` is not refused for any value of the force flag, and no deletion
is performed — every pre-existing file still exists afterwards (the new
run's output is merged into the directory). -/
theorem proceed_without_manifest (hf : String → String) (run : ScraperRun) (fs0 : FS)
    (outDir : Path) (force : Bool)
    (_hd : fs0.isDir outDir = true)
    (hm : fs0.isFile (outDir ++ ["manifest.json"]) = false) :
    (generate hf run fs0 outDir force).2 ≠ .refused ∧
    ∀ p : Path, fs0.isFile p = true → (generate hf run fs0 outDir force).1.isFile p = true := by
  rw [generate_of_no_manifest hf run fs0 outDir force hm]
  constructor
  · simp
  · intro p hp
    have h1 : (fs0.mkdirParents outDir).isFile p = true := by rwa [isFile_mkdirParents]
    have h2 := processEvents_isFile_mono hf outDir run.capturedResponses
      ⟨[], fs0.mkdirParents outDir⟩ p h1
    by_cases hc : (processEvents hf outDir ⟨[], fs0.mkdirParents outDir⟩
        run.capturedResponses).manifest.isEmpty
    · simp only [hc, if_true]
      exact h2
    · simp only [hc, Bool.false_eq_true, if_false]
      exact isFile_writeFile_mono _ _ _ _ h2

/-- Witness for C9: a directory holding a stray fixture but no manifest is
neither refused nor wiped, with `force = true`; the stray file survives. -/
theorem proceed_without_manifest_witness :
    (generate (fun s => s) ⟨[], none, [], none, [], true⟩
      ⟨[(["d", "stray"], .raw [7])], [["d"]]⟩ ["d"] true).2 ≠ .refused ∧
    (generate (fun s => s) ⟨[], none, [], none, [], true⟩
      ⟨[(["d", "stray"], .raw [7])], [["d"]]⟩ ["d"] true).1.isFile ["d", "stray"] = true :=
  have h := proceed_without_manifest (fun s => s) ⟨[], none, [], none, [], true⟩
    ⟨[(["d", "stray"], .raw [7])], [["d"]]⟩ ["d"] true (by decide) (by decide)
  ⟨h.1, h.2 ["d", "stray"] (by decide)⟩

/-- **C7** (Missing fixture): a request whose URL is absent from the
aggregated index makes `mock_send_handler` raise the distinguishable
`KeyError` failure; it never returns a response. -/
theorem missing_fixture (idx : List (String × Path)) (fs : FS) (req : Request)
    (habs : alookup idx req.url = none) :
    mock_send_handler idx fs req = .error (.keyError req.url) := by
  unfold mock_send_handler
  rw [habs]

/-- Witness for C7: a lookup against an empty index fails with `KeyError`. -/
theorem missing_fixture_witness :
    mock_send_handler [] ⟨[], []⟩ ⟨"http://nope", "GET", [], []⟩ =
      .error (.keyError "http://nope") :=
  missing_fixture [] ⟨[], []⟩ ⟨"http://nope", "GET", [], []⟩ rfl

/-- **C10** (implicit — replay lookup depends only on the URL string): two
requests whose URLs render to the same string receive replies with
identical status code and identical body bytes, whatever their method,
headers or body; the response content is a function of the URL and the
read-only index (and fixture store) alone. -/
theorem replay_depends_only_on_url (idx : List (String × Path)) (fs : FS)
    (r₁ r₂ : Request) (hurl : r₁.url = r₂.url) :
    responseView (mock_send_handler idx fs r₁) =
      responseView (mock_send_handler idx fs r₂) := by
  unfold mock_send_handler
  rw [hurl]
  cases alookup idx r₂.url with
  | none => rfl
  | some p =>
    cases hrd : fs.readFile p with
    | none => simp [hrd, responseView]
    | some fd => simp [hrd, responseView]

/-- Witness for C10: a GET with no body and a POST with headers and a body
for the same URL replay to the same 200 response bytes. -/
theorem replay_depends_only_on_url_witness :
    responseView (mock_send_handler [("u", ["d", "f"])] ⟨[(["d", "f"], .raw [1, 2])], [["d"]]⟩
      ⟨"u", "GET", [], []⟩) =
    responseView (mock_send_handler [("u", ["d", "f"])] ⟨[(["d", "f"], .raw [1, 2])], [["d"]]⟩
      ⟨"u", "POST", [("h", "v")], [9, 9]⟩) :=
  replay_depends_only_on_url [("u", ["d", "f"])] ⟨[(["d", "f"], .raw [1, 2])], [["d"]]⟩
    ⟨"u", "GET", [], []⟩ ⟨"u", "POST", [("h", "v")], [9, 9]⟩ rfl

/-- **C8** (Configuration-error iff): `MockLoader` construction fails
fatally exactly when no manifest file is discovered under the root or the
combined index is empty after parsing every discovered manifest; otherwise
it succeeds, and with a non-empty index. -/
theorem config_error_iff (fs : FS) (root : Path) :
    ((∃ e, mockLoaderInit fs root = .error e) ↔
      findManifests fs root = [] ∨ aggregateIndex fs (findManifests fs root) = []) ∧
    ∀ idx, mockLoaderInit fs root = .ok idx → idx ≠ [] := by
  unfold mockLoaderInit
  by_cases h1 : (findManifests fs root).isEmpty
  · simp only [h1, if_true]
    constructor
    · exact ⟨fun _ => Or.inl (List.isEmpty_iff.mp h1), fun _ => ⟨.noManifestFound, rfl⟩⟩
    · intro idx h
      exact absurd h (by simp)
  · simp only [h1, Bool.false_eq_true, if_false]
    by_cases h2 : (aggregateIndex fs (findManifests fs root)).isEmpty
    · simp only [h2, if_true]
      constructor
      · exact ⟨fun _ => Or.inr (List.isEmpty_iff.mp h2), fun _ => ⟨.noValidData, rfl⟩⟩
      · intro idx h
        exact absurd h (by simp)
    · simp only [h2, Bool.false_eq_true, if_false]
      constructor
      · constructor
        · intro ⟨e, he⟩
          exact absurd he (by simp)
        · intro h
          rcases h with h | h
          · exact absurd (List.isEmpty_iff.mpr h) (by simp [h1])
          · exact absurd (List.isEmpty_iff.mpr h) (by simp [h2])
      · intro idx h
        injection h with h
        rw [← h]
        exact fun hnil => absurd (List.isEmpty_iff.mpr hnil) (by simp [h2])

/-- Witness for C8: over an empty filesystem no manifest is found, so
construction fails; and a root with one one-entry manifest succeeds with a
non-empty index. -/
theorem config_error_iff_witness :
    mockLoaderInit ⟨[], []⟩ [] = .error .noManifestFound ∧
    ([("u", ["d", "f"])] : List (String × Path)) ≠ [] :=
  ⟨rfl, (config_error_iff ⟨[(["d", "manifest.json"], .jsonObj [("u", "f")])], [["d"]]⟩ ["d"]).2
    [("u", ["d", "f"])] rfl⟩

/-- **Counterexample to C2 as stated**: a run that aborts at the first
cascade stage (falsy `get_data` result) but whose `get_data` call produced
one intercepted HTTP response still writes a manifest file — the `finally`
block flushes whenever the manifest dict is nonempty, aborted cascade or
not. -/
theorem cascade_abort_still_writes_cex :
    (⟨[⟨"http://a", [1, 2]⟩], none, [], none, [], true⟩ : ScraperRun).cascadeAbort =
      some .emptyMedia ∧
    (generate (fun s => String.append s ".b") ⟨[⟨"http://a", [1, 2]⟩], none, [], none, [], true⟩
      ⟨[], []⟩ ["d"] false).1.isFile ["d", "manifest.json"] = true := by
  constructor
  · rfl
  · rfl

/-- **C2, amended** (the counterexample forces the zero-responses proviso):
for a fresh target directory, a capture run that aborts in the top-level
cascade writes a manifest file if and only if at least one response was
recorded by the interceptor before the abort; in particular a cascade
abort with nothing recorded writes no manifest. -/
theorem cascade_abort_manifest_iff (hf : String → String) (run : ScraperRun) (fs0 : FS)
    (outDir : Path) (force : Bool)
    (hnm : fs0.isFile (outDir ++ ["manifest.json"]) = false)
    (_habort : run.cascadeAbort.isSome = true) :
    (generate hf run fs0 outDir force).1.isFile (outDir ++ ["manifest.json"]) = true ↔
      run.capturedResponses ≠ [] := by
  rw [generate_of_no_manifest hf run fs0 outDir force hnm]
  by_cases hc : (processEvents hf outDir ⟨[], fs0.mkdirParents outDir⟩
      run.capturedResponses).manifest.isEmpty
  · have hev : run.capturedResponses = [] :=
      (processEvents_empty_manifest_iff hf outDir (fs0.mkdirParents outDir)
        run.capturedResponses).mp (List.isEmpty_iff.mp hc)
    simp only [hc, if_true, hev, processEvents_nil]
    simp [isFile_mkdirParents, hnm]
  · have hev : run.capturedResponses ≠ [] := by
      intro h
      apply hc
      rw [List.isEmpty_iff]
      exact (processEvents_empty_manifest_iff hf outDir (fs0.mkdirParents outDir)
        run.capturedResponses).mpr h
    simp only [hc, Bool.false_eq_true, if_false]
    rw [show ((processEvents hf outDir ⟨[], fs0.mkdirParents outDir⟩
      run.capturedResponses).fs.writeFile (outDir ++ ["manifest.json"])
        (.jsonObj (sortEntries (processEvents hf outDir ⟨[], fs0.mkdirParents outDir⟩
          run.capturedResponses).manifest))).isFile (outDir ++ ["manifest.json"]) = true from by
      rw [FS.isFile, readFile_writeFile_self]; rfl]
    simp [hev]

/-- Witness for the amended C2: a cascade-aborting run with one recorded
response writes the manifest. -/
theorem cascade_abort_manifest_iff_witness :
    (generate (fun s => String.append s ".x") ⟨[⟨"http://b", [3]⟩], none, [], none, [], true⟩
      ⟨[], []⟩ ["m"] true).1.isFile ["m", "manifest.json"] = true :=
  (cascade_abort_manifest_iff (fun s => String.append s ".x")
    ⟨[⟨"http://b", [3]⟩], none, [], none, [], true⟩ ⟨[], []⟩ ["m"] true
    (by decide) (by decide)).mpr (by decide)

/-- **Counterexample to C3 as stated**: a capture run that records zero
responses still leaves behind a newly created output directory — `mkdir`
is executed before the cascade and is never rolled back — although no
manifest file is written. -/
theorem empty_capture_leaves_dir_cex :
    (⟨[], none, [], none, [], true⟩ : ScraperRun).capturedResponses = [] ∧
    FS.isDir ⟨[], []⟩ ["d"] = false ∧
    (generate (fun s => s) ⟨[], none, [], none, [], true⟩ ⟨[], []⟩ ["d"] false).1.isDir ["d"]
      = true ∧
    (generate (fun s => s) ⟨[], none, [], none, [], true⟩ ⟨[], []⟩ ["d"] false).1.isFile
      ["d", "manifest.json"] = false := by
  refine ⟨rfl, rfl, ?_, rfl⟩
  decide

/-- **C3, amended** (the counterexample forces dropping the
no-new-directory clause): a capture run recording zero responses writes no
manifest and leaves the file state untouched, but the output directory it
created with `mkdir(parents=True, exist_ok=True)` does remain. -/
theorem empty_capture_state (hf : String → String) (run : ScraperRun) (fs0 : FS)
    (outDir : Path) (force : Bool)
    (hnm : fs0.isFile (outDir ++ ["manifest.json"]) = false)
    (hz : run.capturedResponses = []) :
    (generate hf run fs0 outDir force).1.files = fs0.files ∧
    (generate hf run fs0 outDir force).1.isFile (outDir ++ ["manifest.json"]) = false ∧
    (generate hf run fs0 outDir force).1.isDir outDir = true := by
  rw [generate_of_no_manifest hf run fs0 outDir force hnm, hz]
  simp only [processEvents_nil]
  refine ⟨?_, ?_, ?_⟩
  · simp [files_mkdirParents]
  · simp [isFile_mkdirParents, hnm]
  · simp [isDir_mkdirParents_self]

/-- Witness for the amended C3: a zero-response run over a filesystem with
one unrelated file preserves that file list exactly, writes no manifest,
and leaves the created directory. -/
theorem empty_capture_state_witness :
    (generate (fun s => s) ⟨[], none, [], none, [], true⟩
      ⟨[(["x"], .raw [5])], []⟩ ["d"] false).1.files = [(["x"], FileData.raw [5])] ∧
    (generate (fun s => s) ⟨[], none, [], none, [], true⟩
      ⟨[(["x"], .raw [5])], []⟩ ["d"] false).1.isFile ["d", "manifest.json"] = false ∧
    (generate (fun s => s) ⟨[], none, [], none, [], true⟩
      ⟨[(["x"], .raw [5])], []⟩ ["d"] false).1.isDir ["d"] = true :=
  empty_capture_state (fun s => s) ⟨[], none, [], none, [], true⟩
    ⟨[(["x"], .raw [5])], []⟩ ["d"] false (by decide) (by decide)

/-! ## Dedup lemmas (C4) -/

theorem hook_preserves_some (hf : String → String) (o : Path) (st : GenState)
    (e : Response) (u : String)
    (hu : (alookup st.manifest u).isSome = true) :
    (alookup (save_response_hook hf o st e).manifest u).isSome = true := by
  by_cases hrec : (alookup st.manifest e.url).isSome = true
  · rw [hook_skip _ _ _ _ hrec]; exact hu
  · rw [hook_record _ _ _ _ (by simpa using hrec)]
    have hne : e.url ≠ u := fun h => hrec (h ▸ hu)
    dsimp only
    rw [alookup_cons, if_neg hne]
    exact hu

theorem hook_preserves_none (hf : String → String) (o : Path) (st : GenState)
    (e : Response) (u : String) (hne : e.url ≠ u)
    (hu : alookup st.manifest u = none) :
    alookup (save_response_hook hf o st e).manifest u = none := by
  by_cases hrec : (alookup st.manifest e.url).isSome = true
  · rw [hook_skip _ _ _ _ hrec]; exact hu
  · rw [hook_record _ _ _ _ (by simpa using hrec)]
    dsimp only
    rw [alookup_cons, if_neg hne]
    exact hu

theorem writeCount_eq_zero (hf : String → String) (o : Path) (es : List Response) :
    ∀ (st : GenState) (u : String), (alookup st.manifest u).isSome = true →
    writeCount hf o st es u = 0 := by
  induction es with
  | nil => intro st u _; rfl
  | cons e tl ih =>
    intro st u hu
    unfold writeCount
    have hind : (if e.url = u ∧ (alookup st.manifest e.url).isSome = false then 1 else 0) = 0 := by
      rw [if_neg]
      rintro ⟨hequ, hfalse⟩
      rw [hequ, hu] at hfalse
      simp at hfalse
    rw [hind, Nat.zero_add]
    exact ih _ u (hook_preserves_some hf o st e u hu)

theorem writeCount_eq_one (hf : String → String) (o : Path) (es : List Response) :
    ∀ (st : GenState) (u : String), alookup st.manifest u = none →
    es.any (fun e => decide (e.url = u)) = true →
    writeCount hf o st es u = 1 := by
  induction es with
  | nil => intro st u _ h; simp at h
  | cons e tl ih =>
    intro st u hnone hany
    unfold writeCount
    by_cases hequ : e.url = u
    · rw [if_pos ⟨hequ, by rw [hequ, hnone]; rfl⟩]
      have hrecorded : (alookup (save_response_hook hf o st e).manifest u).isSome = true := by
        rw [hook_record _ _ _ _ (by rw [hequ, hnone]; rfl)]
        dsimp only
        rw [alookup_cons, if_pos hequ]
        rfl
      rw [writeCount_eq_zero hf o tl _ u hrecorded]
    · rw [if_neg (fun hc => hequ hc.1), Nat.zero_add]
      have hany' : tl.any (fun e => decide (e.url = u)) = true := by
        rcases List.any_eq_true.mp hany with ⟨e', he', hpe⟩
        rcases List.mem_cons.mp he' with rfl | he'
        · exact absurd (of_decide_eq_true hpe) hequ
        · exact List.any_eq_true.mpr ⟨e', he', hpe⟩
      exact ih _ u (hook_preserves_none hf o st e u hequ hnone) hany'

theorem countKey_processEvents_of_recorded (hf : String → String) (o : Path)
    (es : List Response) :
    ∀ (st : GenState) (u : String), (alookup st.manifest u).isSome = true →
    (processEvents hf o st es).manifest.countP (fun e => decide (e.1 = u)) =
      st.manifest.countP (fun e => decide (e.1 = u)) := by
  induction es with
  | nil => intro st u _; rfl
  | cons e tl ih =>
    intro st u hu
    rw [processEvents_cons]
    by_cases hrec : (alookup st.manifest e.url).isSome = true
    · rw [hook_skip _ _ _ _ hrec]; exact ih st u hu
    · rw [hook_record _ _ _ _ (by simpa using hrec)]
      have hne : e.url ≠ u := fun h => hrec (h ▸ hu)
      rw [ih _ u (by dsimp only; rw [alookup_cons, if_neg hne]; exact hu)]
      dsimp only
      rw [List.countP_cons_of_neg]
      simpa using hne

theorem countKey_processEvents_of_new (hf : String → String) (o : Path)
    (es : List Response) :
    ∀ (st : GenState) (u : String), alookup st.manifest u = none →
    es.any (fun e => decide (e.url = u)) = true →
    (processEvents hf o st es).manifest.countP (fun e => decide (e.1 = u)) =
      st.manifest.countP (fun e => decide (e.1 = u)) + 1 := by
  induction es with
  | nil => intro st u _ h; simp at h
  | cons e tl ih =>
    intro st u hnone hany
    rw [processEvents_cons]
    by_cases hequ : e.url = u
    · rw [hook_record _ _ _ _ (by rw [hequ, hnone]; rfl)]
      rw [countKey_processEvents_of_recorded hf o tl _ u
        (by dsimp only; rw [alookup_cons, if_pos hequ]; rfl)]
      dsimp only
      rw [List.countP_cons_of_pos]
      simpa using hequ
    · have hany' : tl.any (fun e => decide (e.url = u)) = true := by
        rcases List.any_eq_true.mp hany with ⟨e', he', hpe⟩
        rcases List.mem_cons.mp he' with rfl | he'
        · exact absurd (of_decide_eq_true hpe) hequ
        · exact List.any_eq_true.mpr ⟨e', he', hpe⟩
      by_cases hrec : (alookup st.manifest e.url).isSome = true
      · rw [hook_skip _ _ _ _ hrec]; exact ih st u hnone hany'
      · rw [hook_record _ _ _ _ (by simpa using hrec)]
        rw [ih _ u (by dsimp only; rw [alookup_cons, if_neg hequ]; exact hnone) hany']
        dsimp only
        rw [List.countP_cons_of_neg]
        simpa using hequ

/-- **C4** (Dedup): when the interceptor observes the same URL at least
twice in one capture run, the resulting in-memory manifest holds exactly
one entry for that URL, the fixture write for that URL happens exactly
once (on first sight), and observing a URL already in the manifest leaves
the capture state completely unchanged (a no-op). -/
theorem capture_dedup (hf : String → String) (outDir : Path) (fs : FS)
    (events : List Response) (url : String)
    (hocc : 2 ≤ events.countP (fun e => decide (e.url = url))) :
    (processEvents hf outDir ⟨[], fs⟩ events).manifest.countP
      (fun e => decide (e.1 = url)) = 1 ∧
    writeCount hf outDir ⟨[], fs⟩ events url = 1 ∧
    ∀ (e : Response) (st : GenState), e.url = url →
      (alookup st.manifest url).isSome = true →
      save_response_hook hf outDir st e = st := by
  have hpos : 0 < events.countP (fun e => decide (e.url = url)) :=
    lt_of_lt_of_le (by norm_num) hocc
  have hany : events.any (fun e => decide (e.url = url)) = true := by
    rcases List.countP_pos_iff.mp hpos with ⟨e, he, hpe⟩
    exact List.any_eq_true.mpr ⟨e, he, hpe⟩
  refine ⟨?_, ?_, ?_⟩
  · have h := countKey_processEvents_of_new hf outDir events ⟨[], fs⟩ url rfl hany
    simpa using h
  · exact writeCount_eq_one hf outDir events ⟨[], fs⟩ url rfl hany
  · intro e st hequ hrec
    apply hook_skip
    rw [hequ]
    exact hrec

/-- Witness for C4: a run observing the same URL twice records one
manifest entry, writes once, and the second observation is a no-op. -/
theorem capture_dedup_witness :
    (processEvents (fun s => s) ["d"] ⟨[], ⟨[], []⟩⟩
      [⟨"u", [1]⟩, ⟨"u", [2]⟩]).manifest.countP (fun e => decide (e.1 = "u")) = 1 ∧
    writeCount (fun s => s) ["d"] ⟨[], ⟨[], []⟩⟩ [⟨"u", [1]⟩, ⟨"u", [2]⟩] "u" = 1 ∧
    save_response_hook (fun s => s) ["d"] ⟨[("u", "u")], ⟨[], []⟩⟩ ⟨"u", [2]⟩ =
      ⟨[("u", "u")], ⟨[], []⟩⟩ :=
  have h := capture_dedup (fun s => s) ["d"] ⟨[], []⟩ [⟨"u", [1]⟩, ⟨"u", [2]⟩] "u" (by decide)
  ⟨h.1, h.2.1, h.2.2 ⟨"u", [2]⟩ ⟨[("u", "u")], ⟨[], []⟩⟩ rfl (by decide)⟩

/-- **C6** (Aggregation override): when the discovered manifest list (the
scan order) has a manifest `p` that defines `url`, and no manifest scanned
after `p` defines `url`, the aggregated index maps `url` to `p`'s filename
for it, resolved relative to `p`'s own directory — the last-scanned
manifest defining a URL wins, deterministically in the scan order. -/
theorem aggregation_override (fs : FS) (root : Path) (l₁ l₂ : List Path) (p : Path)
    (entries : List (String × String)) (url fn : String)
    (hscan : findManifests fs root = l₁ ++ p :: l₂)
    (hread : (fs.readFile p).bind decodeManifest = some entries)
    (hlast : alookup entries.reverse url = some fn)
    (hafter : ∀ q ∈ l₂, ∀ es', (fs.readFile q).bind decodeManifest = some es' →
      url ∉ es'.map Prod.fst) :
    alookup (aggregateIndex fs (findManifests fs root)) url =
      some (p.dropLast ++ [fn]) := by
  rw [hscan]
  unfold aggregateIndex
  rw [show l₁ ++ p :: l₂ = (l₁ ++ [p]) ++ l₂ by simp, List.foldl_append,
    aggregateFold_lookup_unchanged fs l₂ url hafter, List.foldl_append,
    List.foldl_cons, List.foldl_nil, loadManifestInto_lookup, hread]
  simp [hlast]

/-- Witness for C6: two manifests under one root binding the same URL to
different filenames; the aggregated index holds the later-scanned
manifest's filename, resolved against that manifest's directory. -/
theorem aggregation_override_witness :
    alookup
      (aggregateIndex
        ⟨[(["a", "manifest.json"], .jsonObj [("u", "f1")]),
          (["b", "manifest.json"], .jsonObj [("u", "f2")])], [["a"], ["b"]]⟩
        (findManifests
          ⟨[(["a", "manifest.json"], .jsonObj [("u", "f1")]),
            (["b", "manifest.json"], .jsonObj [("u", "f2")])], [["a"], ["b"]]⟩ []))
      "u" = some ["b", "f2"] :=
  aggregation_override
    ⟨[(["a", "manifest.json"], .jsonObj [("u", "f1")]),
      (["b", "manifest.json"], .jsonObj [("u", "f2")])], [["a"], ["b"]]⟩
    [] [["a", "manifest.json"]] [] ["b", "manifest.json"] [("u", "f2")] "u" "f2"
    rfl rfl rfl (fun q hq => absurd hq (List.not_mem_nil q))

/-! ## Round-trip lemmas (C1) -/

theorem generate_fst_writes (hf : String → String) (run : ScraperRun) (fs0 : FS)
    (outDir : Path) (force : Bool)
    (hnm : fs0.isFile (outDir ++ ["manifest.json"]) = false)
    (hne : run.capturedResponses ≠ []) :
    (generate hf run fs0 outDir force).1 =
      (captureState hf run fs0 outDir).fs.writeFile (outDir ++ ["manifest.json"])
        (.jsonObj (sortEntries (captureState hf run fs0 outDir).manifest)) := by
  have hc : (captureState hf run fs0 outDir).manifest.isEmpty = false := by
    unfold captureState
    cases hb : (processEvents hf outDir ⟨[], fs0.mkdirParents outDir⟩
        run.capturedResponses).manifest.isEmpty
    · rfl
    · exact absurd ((processEvents_empty_manifest_iff hf outDir _ _).mp
        (List.isEmpty_iff.mp hb)) hne
  rw [generate_of_no_manifest hf run fs0 outDir force hnm]
  unfold captureState at hc ⊢
  simp only [hc, Bool.false_eq_true, if_false]

theorem findManifests_after_capture (hf : String → String) (run : ScraperRun) (fs0 : FS)
    (outDir : Path)
    (hclean : ∀ pr ∈ fs0.files, ¬ (outDir <+: pr.1))
    (hname : ∀ e ∈ run.capturedResponses, hf e.url ≠ "manifest.json") :
    findManifests
      ((captureState hf run fs0 outDir).fs.writeFile (outDir ++ ["manifest.json"])
        (.jsonObj (sortEntries (captureState hf run fs0 outDir).manifest)))
      outDir = [outDir ++ ["manifest.json"]] := by
  unfold findManifests FS.writeFile
  simp only [List.map_cons]
  rw [List.filter_cons_of_pos (by simp [List.prefix_append, List.getLast?_concat])]
  suffices hsub : (((captureState hf run fs0 outDir).fs.files.filter
      (fun e => decide (e.1 ≠ outDir ++ ["manifest.json"]))).map Prod.fst).filter
      (fun p => decide (outDir <+: p) && decide (p.getLast? = some "manifest.json")) = [] by
    rw [hsub]
  rw [List.filter_eq_nil_iff]
  intro q hq
  obtain ⟨pr, hpr, rfl⟩ := List.mem_map.mp hq
  have hpr' : pr ∈ (captureState hf run fs0 outDir).fs.files := (List.mem_filter.mp hpr).1
  have hkey : pr.1 ∈ (captureState hf run fs0 outDir).fs.files.map Prod.fst :=
    List.mem_map.mpr ⟨pr, hpr', rfl⟩
  rcases processEvents_files_keys hf outDir run.capturedResponses
      ⟨[], fs0.mkdirParents outDir⟩ pr.1 hkey with hold | ⟨e, he, heq⟩
  · have hold' : pr.1 ∈ fs0.files.map Prod.fst := hold
    obtain ⟨pr0, hpr0, hpr0eq⟩ := List.mem_map.mp hold'
    have hno : ¬ (outDir <+: pr.1) := hpr0eq ▸ hclean pr0 hpr0
    simp [hno]
  · rw [heq]
    have hnm : hf e.url ≠ "manifest.json" := hname e he
    simp [List.getLast?_concat, hnm]

/-- **C1** (Round-trip): for every URL captured during a run (recorded by
the interceptor hook into the manifest together with its fixture bytes —
`e₀` being the first, hence recorded, response for that URL), building the
replay loader over the capture's output directory and sending a request
for that URL returns a status-200 response whose body is byte-identical to
the captured response content.  The hypotheses state the facts the code
relies on about SHA-256 hex digests: no collisions among the run's URLs,
and no digest equal to the literal filename `manifest.json`; `hclean` says
the target directory is fresh. -/
theorem round_trip (hf : String → String) (run : ScraperRun) (fs0 : FS) (outDir : Path)
    (force : Bool) (u : String) (req : Request) (e₀ : Response)
    (hinj : ∀ e1 ∈ run.capturedResponses, ∀ e2 ∈ run.capturedResponses,
      hf e1.url = hf e2.url → e1.url = e2.url)
    (hname : ∀ e ∈ run.capturedResponses, hf e.url ≠ "manifest.json")
    (hclean : ∀ pr ∈ fs0.files, ¬ (outDir <+: pr.1))
    (hfirst : run.capturedResponses.find? (fun e => decide (e.url = u)) = some e₀)
    (hreq : req.url = u) :
    replayRequest (generate hf run fs0 outDir force).1 outDir req =
      some (.ok ⟨200, e₀.content, req⟩) := by
  have he₀mem : e₀ ∈ run.capturedResponses := List.mem_of_find?_eq_some hfirst
  have he₀url : e₀.url = u := by
    have h := List.find?_some hfirst
    exact of_decide_eq_true h
  have hnm : fs0.isFile (outDir ++ ["manifest.json"]) = false :=
    isFile_eq_false_of_clean fs0 outDir _ hclean ⟨["manifest.json"], rfl⟩
  have hu_inj : ∀ e ∈ run.capturedResponses, hf e.url = hf u → e.url = u := by
    intro e he heq
    rw [← he₀url]
    exact hinj e he e₀ he₀mem (by rw [heq, he₀url])
  have hu_name : hf u ≠ "manifest.json" := he₀url ▸ hname e₀ he₀mem
  have hany : run.capturedResponses.any (fun e => decide (e.url = u)) = true :=
    List.any_eq_true.mpr ⟨e₀, he₀mem, by simp [he₀url]⟩
  have hne : run.capturedResponses ≠ [] := List.ne_nil_of_mem he₀mem
  have hmlook : alookup (captureState hf run fs0 outDir).manifest u = some (hf u) :=
    processEvents_lookup_new hf outDir run.capturedResponses
      ⟨[], fs0.mkdirParents outDir⟩ u rfl hany
  have hmem : (u, hf u) ∈ (captureState hf run fs0 outDir).manifest :=
    alookup_mem _ _ _ hmlook
  have hnd : ((captureState hf run fs0 outDir).manifest.map Prod.fst).Nodup :=
    processEvents_nodup_keys hf outDir run.capturedResponses
      ⟨[], fs0.mkdirParents outDir⟩ (by simp)
  have hsortmem : (u, hf u) ∈ (sortEntries (captureState hf run fs0 outDir).manifest).reverse :=
    List.mem_reverse.mpr ((sortEntries_perm _).mem_iff.mpr hmem)
  have hsortnd : ((sortEntries (captureState hf run fs0 outDir).manifest).reverse.map
      Prod.fst).Nodup := by
    rw [List.map_reverse, List.nodup_reverse]
    exact (((sortEntries_perm _).map Prod.fst).nodup_iff).mpr hnd
  have hrevlook : alookup (sortEntries (captureState hf run fs0 outDir).manifest).reverse u
      = some (hf u) := alookup_of_mem_nodup _ _ _ hsortnd hsortmem
  have hidxlook : alookup (aggregateIndex
      ((captureState hf run fs0 outDir).fs.writeFile (outDir ++ ["manifest.json"])
        (.jsonObj (sortEntries (captureState hf run fs0 outDir).manifest)))
      [outDir ++ ["manifest.json"]]) u = some (outDir ++ [hf u]) := by
    unfold aggregateIndex
    rw [List.foldl_cons, List.foldl_nil, loadManifestInto_lookup,
      readFile_writeFile_self]
    simp only [Option.some_bind, decodeManifest]
    rw [hrevlook]
    simp [List.dropLast_concat]
  have hinit : mockLoaderInit
      ((captureState hf run fs0 outDir).fs.writeFile (outDir ++ ["manifest.json"])
        (.jsonObj (sortEntries (captureState hf run fs0 outDir).manifest))) outDir
      = .ok (aggregateIndex
        ((captureState hf run fs0 outDir).fs.writeFile (outDir ++ ["manifest.json"])
          (.jsonObj (sortEntries (captureState hf run fs0 outDir).manifest)))
        [outDir ++ ["manifest.json"]]) := by
    unfold mockLoaderInit
    rw [findManifests_after_capture hf run fs0 outDir hclean hname]
    have hidxne : (aggregateIndex
        ((captureState hf run fs0 outDir).fs.writeFile (outDir ++ ["manifest.json"])
          (.jsonObj (sortEntries (captureState hf run fs0 outDir).manifest)))
        [outDir ++ ["manifest.json"]]).isEmpty = false := by
      cases hx : aggregateIndex
          ((captureState hf run fs0 outDir).fs.writeFile (outDir ++ ["manifest.json"])
            (.jsonObj (sortEntries (captureState hf run fs0 outDir).manifest)))
          [outDir ++ ["manifest.json"]] with
      | nil => rw [hx] at hidxlook; exact absurd hidxlook (by simp [alookup])
      | cons a l => rfl
    simp only [List.isEmpty_cons, hidxne, Bool.false_eq_true, if_false]
  have hfix : ((captureState hf run fs0 outDir).fs.writeFile (outDir ++ ["manifest.json"])
      (.jsonObj (sortEntries (captureState hf run fs0 outDir).manifest))).readFile
      (outDir ++ [hf u]) = some (.raw e₀.content) := by
    rw [readFile_writeFile_ne _ _ _ _
      (fun hcontra => hu_name (fixturePath_inj outDir _ _ hcontra))]
    exact processEvents_fixture_content hf outDir run.capturedResponses
      ⟨[], fs0.mkdirParents outDir⟩ u e₀ rfl hu_inj hfirst
  rw [generate_fst_writes hf run fs0 outDir force hnm hne]
  unfold replayRequest
  rw [hinit]
  simp only [mock_send_handler, hreq, hidxlook, hfix, FileData.toBytes]

/-- Witness for C1: a run that captures one response for URL `u` replays
it as a 200 response with the identical body bytes. -/
theorem round_trip_witness :
    replayRequest (generate (fun s => String.append s ".b")
      ⟨[⟨"u", [1, 2]⟩], none, [], none, [], true⟩ ⟨[], []⟩ ["d"] false).1 ["d"]
      ⟨"u", "GET", [], []⟩ =
      some (.ok ⟨200, [1, 2], ⟨"u", "GET", [], []⟩⟩) :=
  round_trip (fun s => String.append s ".b") ⟨[⟨"u", [1, 2]⟩], none, [], none, [], true⟩
    ⟨[], []⟩ ["d"] false "u" ⟨"u", "GET", [], []⟩ ⟨"u", [1, 2]⟩
    (by decide) (by decide) (by decide) rfl rfl

end ISubRip
